import Mathlib

/-!
Verification of the Botline message-routing core against its specification.

The definitions below are a shallow embedding of the JavaScript sources:
`src/core/messageBus.js`, `src/core/middleware.js`, `src/core/router.js`,
`src/core/commandHandler.js`, `src/core/agentRegistry.js`,
`src/core/scheduler.js` and the AgentCommunicator module.

Modelling conventions:
- JavaScript strings are modelled as Lean `String`; absent / falsy string
  fields are modelled as the empty string (JS string truthiness is exactly
  non-emptiness).
- JS string primitives used by the code (`startsWith`, `split(' ')`,
  `substring(1)`, `toLowerCase`) are modelled char-by-char on `String.data`.
- Module-level mutable state (the rate-limit map and the current clock) is
  threaded explicitly through a `World` record.
- A middleware is a function from message, context and world to a step:
  it may throw, call its continuation with an updated context, or return
  without calling the continuation (`MWStep.stop`).
-/

namespace Botline

/-- The mutable context bag threaded through one pipeline run.
The JS field `from` is spelled `from_` because `from` is a Lean keyword. -/
structure Ctx where
  platform : String := ""
  user : String := ""
  username : String := ""
  from_ : String := ""
  ip : String := ""
  secret : String := ""
  type : String := ""
  isCommand : Bool := false
  command : String := ""
  args : List String := []
  agent : String := ""
  deriving Repr, DecidableEq

/-- A per-key rate-limit record: `{ count, resetAt }`. -/
structure RateEntry where
  count : Nat
  resetAt : Nat
  deriving Repr, DecidableEq

/-- Process-wide mutable state outside the bus: the module-level rate-limit
map of `middleware.js` and the current value of `Date.now()`. -/
structure World where
  rateLimits : List (String × RateEntry) := []
  now : Nat := 0
  deriving Repr, DecidableEq

/-- What a middleware does when invoked: return without calling `next`
(`stop`), throw an error, or call `next` after optionally mutating the
context (`proceed`). The repository's middleware perform no work after
`await next()`, so a middleware is fully described by one such step. -/
inductive MWStep where
  | stop : Ctx → MWStep
  | throwE : String → MWStep
  | proceed : Ctx → MWStep
  deriving Repr, DecidableEq

/-- A middleware: `async (message, context, next) => ...`. -/
def MW : Type := String → Ctx → World → World × MWStep

/-- Result of running a middleware chain: final world, outcome (thrown error
or final context), how many middleware were invoked, and whether some
middleware returned without calling its continuation. -/
structure ChainResult where
  world : World
  outcome : Except String Ctx
  ran : Nat
  stopped : Bool
  deriving Repr

/-- `MessageBus.executeMiddleware`: run the chain in registration order;
a middleware that does not call `next` ends the chain without error. -/
def execChain : List MW → String → Ctx → World → ChainResult
  | [], _, c, w => ⟨w, .ok c, 0, false⟩
  | mw :: rest, m, c, w =>
    match mw m c w with
    | (w', .stop c') => ⟨w', .ok c', 1, true⟩
    | (w', .throwE e) => ⟨w', .error e, 1, false⟩
    | (w', .proceed c') =>
      let r := execChain rest m c' w'
      ⟨r.world, r.outcome, r.ran + 1, r.stopped⟩

/-- A buffered message: `{ event, message (preview), context, timestamp }`. -/
structure BufferEntry where
  event : String
  message : String
  context : Ctx
  timestamp : Nat
  deriving Repr, DecidableEq

/-- The MessageBus state: middleware chain and bounded message buffer. -/
structure Bus where
  middleware : List MW := []
  messageBuffer : List BufferEntry := []
  maxBufferSize : Nat := 100

/-- `MessageBus.addToBuffer`: push, then shift the oldest entry out if the
buffer has grown past `maxBufferSize`. -/
def addToBuffer (bus : Bus) (entry : BufferEntry) : Bus :=
  let b := bus.messageBuffer ++ [entry]
  { bus with messageBuffer := if bus.maxBufferSize < b.length then b.tail else b }

/-- Result of a `publish` call: updated bus and world, the returned or
rethrown outcome, the events emitted to subscribers (in order), and how
many middleware ran. -/
structure PublishResult where
  bus : Bus
  world : World
  result : Except String Unit
  emitted : List String
  ran : Nat

/-- `MessageBus.publish`: append a buffer entry, run the middleware chain,
then emit the event; if a middleware throws, emit `error` instead and
rethrow. -/
def publish (bus : Bus) (event message : String) (context : Ctx) (w : World) :
    PublishResult :=
  let bus' := addToBuffer bus ⟨event, message, context, w.now⟩
  let r := execChain bus.middleware message context w
  match r.outcome with
  | .ok _ => ⟨bus', r.world, .ok (), [event], r.ran⟩
  | .error e => ⟨bus', r.world, .error e, ["error"], r.ran⟩

/-- `messageBuffer.slice(-count)` in `getRecentMessages`: for a positive
count this is the last `count` elements; JS `slice(-0)` equals `slice(0)`,
the whole array. -/
def getRecentMessages (bus : Bus) (count : Nat) : List BufferEntry :=
  if count = 0 then bus.messageBuffer
  else bus.messageBuffer.drop (bus.messageBuffer.length - count)

/-- The last `n` elements of a list. -/
def takeLast (n : Nat) (l : List α) : List α := l.drop (l.length - n)

/-! ### JS string primitives, modelled on the character list -/

/-- JS `s.startsWith('/')` for a one-character needle: the first character
of `s` is that character. -/
def jsStartsWith (s : String) (c : Char) : Bool :=
  match s.data with
  | [] => false
  | c' :: _ => c' = c

/-- JS `split(' ')` on a character list: split at every single space,
keeping empty fields produced by consecutive separators. -/
def splitSp : List Char → List (List Char)
  | [] => [[]]
  | c :: cs =>
    if c = ' ' then [] :: splitSp cs
    else
      match splitSp cs with
      | [] => [[c]]
      | t :: ts => (c :: t) :: ts

/-- JS `message.split(' ')`. -/
def jsSplitSpace (s : String) : List String :=
  (splitSp s.data).map String.mk

/-- JS `toLowerCase`, character by character. -/
def jsToLower (s : String) : String :=
  String.mk (s.data.map Char.toLower)

/-- JS `s.substring(1)`. -/
def jsDropFirst (s : String) : String :=
  String.mk s.data.tail

/-! ### AgentRegistry (`src/core/agentRegistry.js`) -/

/-- An agent record; `secret = ""` models a missing/falsy secret and an
empty `allowedIPs` list means allow-all, matching the JS checks. -/
structure AgentRecord where
  callbackUrl : String := ""
  description : String := ""
  secret : String := ""
  allowedIPs : List String := []
  active : Bool := true
  deriving Repr, DecidableEq

/-- The registry's agent map, as an association list with unique keys. -/
def Registry : Type := List (String × AgentRecord)

/-- `AgentRegistry.hasAgent`. -/
def hasAgent (reg : Registry) (name : String) : Bool :=
  (List.lookup name reg).isSome

/-- `AgentRegistry.verifySecret`: false for an unknown agent; true when the
agent has no (falsy) configured secret; otherwise exact equality. -/
def verifySecret (reg : Registry) (name secret : String) : Bool :=
  match List.lookup name reg with
  | none => false
  | some agent =>
    if agent.secret = "" then true
    else agent.secret = secret

/-- `AgentRegistry.isIPAllowed`: false for an unknown agent; true when the
allow-list is empty; otherwise membership after normalizing the IPv6
loopback spellings to `127.0.0.1`. -/
def isIPAllowed (reg : Registry) (name ip : String) : Bool :=
  match List.lookup name reg with
  | none => false
  | some agent =>
    if agent.allowedIPs = [] then true
    else
      let normalizedIP := if ip = "::1" ∨ ip = "::ffff:127.0.0.1" then "127.0.0.1" else ip
      agent.allowedIPs.contains normalizedIP

/-! ### Built-in middleware (`src/core/middleware.js`) -/

/-- `validationMiddleware`: reject empty messages and messages longer than
10000 characters. (The non-string case of the JS check cannot arise for a
`String` message.) -/
def validationMiddleware : MW := fun message ctx w =>
  if message.length = 0 then (w, .throwE "Message cannot be empty")
  else if 10000 < message.length then (w, .throwE "Message too long (max 10000 characters)")
  else (w, .proceed ctx)

/-- `loggingMiddleware`: observes only, always proceeds. -/
def loggingMiddleware : MW := fun _ ctx w => (w, .proceed ctx)

/-- `userFilterMiddleware`: placeholder, always proceeds. -/
def userFilterMiddleware : MW := fun _ ctx w => (w, .proceed ctx)

/-- `commandDetectionMiddleware`: when the message starts with `/`, split on
single spaces, store the lower-cased first token without the sigil as
`command`, the remaining tokens as `args`, and set `isCommand`. -/
def commandDetectionMiddleware : MW := fun message ctx w =>
  if jsStartsWith message '/' then
    let parts := jsSplitSpace message
    let command := jsToLower (jsDropFirst (parts.headD ""))
    let args := parts.tail
    (w, .proceed { ctx with isCommand := true, command := command, args := args })
  else (w, .proceed ctx)

/-- `accessControlMiddleware` over a given registry: applies only when
`from` is truthy and `type` is `"agent"`; checks registration always, the
secret only when one is supplied, and the IP only when one is present. -/
def accessControlMiddleware (reg : Registry) : MW := fun _ ctx w =>
  if ctx.from_ ≠ "" ∧ ctx.type = "agent" then
    if ¬ hasAgent reg ctx.from_ then
      (w, .throwE ("Agent " ++ ctx.from_ ++ " is not registered"))
    else if ctx.secret ≠ "" ∧ ¬ verifySecret reg ctx.from_ ctx.secret then
      (w, .throwE "Invalid agent secret")
    else if ctx.ip ≠ "" ∧ ¬ isIPAllowed reg ctx.from_ ctx.ip then
      (w, .throwE "IP address not allowed")
    else (w, .proceed ctx)
  else (w, .proceed ctx)

/-- `RATE_LIMIT_WINDOW` (one minute, in milliseconds). -/
def rateLimitWindow : Nat := 60000

/-- `MAX_MESSAGES_PER_WINDOW`. -/
def maxMessagesPerWindow : Nat := 30

/-- The rate-limit key: `context.user || context.from || context.ip ||
'unknown'`. -/
def rlKey (ctx : Ctx) : String :=
  if ctx.user ≠ "" then ctx.user
  else if ctx.from_ ≠ "" then ctx.from_
  else if ctx.ip ≠ "" then ctx.ip
  else "unknown"

/-- `rateLimits.set(key, v)`: replace in place when present, append when
absent (JS `Map` semantics). -/
def rlSet (m : List (String × RateEntry)) (key : String) (v : RateEntry) :
    List (String × RateEntry) :=
  if (List.lookup key m).isSome then
    m.map (fun p => if p.1 = key then (key, v) else p)
  else m ++ [(key, v)]

/-- `rateLimitMiddleware`: lazily create or reset the per-key counter;
inside the window increment it first, then reject once it exceeds the cap. -/
def rateLimitMiddleware : MW := fun _ ctx w =>
  let key := rlKey ctx
  match List.lookup key w.rateLimits with
  | none =>
    ({ w with rateLimits := rlSet w.rateLimits key ⟨1, w.now + rateLimitWindow⟩ }, .proceed ctx)
  | some limit =>
    if limit.resetAt < w.now then
      ({ w with rateLimits := rlSet w.rateLimits key ⟨1, w.now + rateLimitWindow⟩ }, .proceed ctx)
    else
      let count := limit.count + 1
      if maxMessagesPerWindow < count then
        ({ w with rateLimits := rlSet w.rateLimits key ⟨count, limit.resetAt⟩ },
         .throwE "Rate limit exceeded. Please slow down.")
      else
        ({ w with rateLimits := rlSet w.rateLimits key ⟨count, limit.resetAt⟩ }, .proceed ctx)

/-! ### CommandHandler (`src/core/commandHandler.js`) -/

/-- A command or agent response: `{ text }`. -/
structure Response where
  text : String
  deriving Repr, DecidableEq

/-- A command handler body; `Except.error` models a thrown exception. -/
def Handler : Type := List String → Ctx → Except String Response

/-- The registered commands, as an association list with unique names. -/
def Commands : Type := List (String × Handler)

/-- `CommandHandler.hasCommand`. -/
def hasCommand (cmds : Commands) (command : String) : Bool :=
  (List.lookup command cmds).isSome

/-- `CommandHandler.execute`: an unknown command yields an "Unknown
command" message, a handler exception is caught and rendered as an error
message; the outer `Except` level records whether `execute` itself throws. -/
def execute (cmds : Commands) (command : String) (args : List String) (ctx : Ctx) :
    Except String Response :=
  match List.lookup command cmds with
  | none =>
    .ok ⟨"Unknown command: /" ++ command ++ "\n\nUse /help to see available commands."⟩
  | some handler =>
    match handler args ctx with
    | .ok r => .ok r
    | .error e => .ok ⟨"Error executing command: " ++ e⟩

/-! ### MessageRouter (`src/core/router.js`) -/

/-- An agent adapter's `sendMessage`; `Except.error` models a rejection. -/
def Agent : Type := String → Ctx → Except String Response

/-- The router's registries and default agent. -/
structure RouterState where
  platformAdapters : List String := []
  agentAdapters : List (String × Agent) := []
  defaultAgent : Option String := none

/-- Result of `routeMessage`: updated bus and world, the returned response
or thrown error, and the responses delivered to platform adapters. -/
structure RouteResult where
  bus : Bus
  world : World
  result : Except String Response
  delivered : List (String × Response)

/-- `MessageRouter.routeMessage`. The bus is given the spread copy
`{...context, platform}` of the caller's context; the later command check
reads the caller's own `context`, exactly as the JS does. -/
def routeMessage (rs : RouterState) (cmds : Commands) (bus : Bus)
    (platformName message : String) (context : Ctx) (w : World) : RouteResult :=
  let p1 := publish bus "message:incoming" message { context with platform := platformName } w
  match p1.result with
  | .error e => ⟨p1.bus, p1.world, .error e, []⟩
  | .ok _ =>
    if context.isCommand ∧ hasCommand cmds context.command then
      match execute cmds context.command context.args context with
      | .error e => ⟨p1.bus, p1.world, .error e, []⟩
      | .ok response =>
        let delivered :=
          if rs.platformAdapters.contains platformName then [(platformName, response)] else []
        ⟨p1.bus, p1.world, .ok response, delivered⟩
    else
      match (if context.agent ≠ "" then some context.agent else rs.defaultAgent) with
      | none => ⟨p1.bus, p1.world, .error "No agent specified and no default agent set", []⟩
      | some agentName =>
        match List.lookup agentName rs.agentAdapters with
        | none => ⟨p1.bus, p1.world, .error ("Agent " ++ agentName ++ " not found"), []⟩
        | some agent =>
          match agent message context with
          | .error e => ⟨p1.bus, p1.world, .error e, []⟩
          | .ok response =>
            let p2 := publish p1.bus "message:outgoing" response.text
              { context with agent := agentName } p1.world
            match p2.result with
            | .error e => ⟨p2.bus, p2.world, .error e, []⟩
            | .ok _ =>
              let delivered :=
                if rs.platformAdapters.contains platformName then [(platformName, response)] else []
              ⟨p2.bus, p2.world, .ok response, delivered⟩

/-! ### AgentCommunicator (the unnamed communicator module) -/

/-- Outcome of a `sendToAgent`/`sendWithBackoff` run: whether it succeeded,
how many attempts were performed, the waits before each retry in order, and
the attempt count named by the thrown delivery error, if any. -/
structure SendOutcome where
  ok : Bool
  attempts : Nat
  delays : List Nat
  err : Option Nat
  deriving Repr, DecidableEq

/-- The retry loop of `sendToAgent`, parameterized by an oracle
`attemptOk n` telling whether the `n`-th POST (0-based) succeeds. Before a
retry (`0 < attempt`) it waits `retryDelay * attempt`; when the last
allowed attempt fails, it throws naming `retries + 1` attempts. -/
def sendGo (attemptOk : Nat → Bool) (retries retryDelay attempt : Nat) : SendOutcome :=
  if attempt ≤ retries then
    let myDelay := if 0 < attempt then [retryDelay * attempt] else []
    if attemptOk attempt then ⟨true, attempt + 1, myDelay, none⟩
    else if attempt = retries then ⟨false, attempt + 1, myDelay, some (retries + 1)⟩
    else
      let r := sendGo attemptOk retries retryDelay (attempt + 1)
      ⟨r.ok, r.attempts, myDelay ++ r.delays, r.err⟩
  else ⟨false, attempt, [], none⟩
  termination_by retries + 1 - attempt
  decreasing_by omega

/-- The retry loop of `sendWithBackoff`: identical except the wait before
retry `attempt` is `retryDelay * 2 ^ (attempt - 1)`. -/
def backoffGo (attemptOk : Nat → Bool) (maxRetries retryDelay attempt : Nat) : SendOutcome :=
  if attempt ≤ maxRetries then
    let myDelay := if 0 < attempt then [retryDelay * 2 ^ (attempt - 1)] else []
    if attemptOk attempt then ⟨true, attempt + 1, myDelay, none⟩
    else if attempt = maxRetries then ⟨false, attempt + 1, myDelay, some (maxRetries + 1)⟩
    else
      let r := backoffGo attemptOk maxRetries retryDelay (attempt + 1)
      ⟨r.ok, r.attempts, myDelay ++ r.delays, r.err⟩
  else ⟨false, attempt, [], none⟩
  termination_by maxRetries + 1 - attempt
  decreasing_by omega

/-- `options.retries || this.maxRetries`: a missing option and the falsy
value 0 both fall back to the communicator's default. -/
def resolveRetries (optRetries : Option Nat) (maxRetries : Nat) : Nat :=
  match optRetries with
  | none => maxRetries
  | some r => if r = 0 then maxRetries else r

/-- `AgentCommunicator.sendToAgent`, starting the loop at attempt 0. -/
def sendToAgent (attemptOk : Nat → Bool) (optRetries : Option Nat)
    (maxRetries retryDelay : Nat) : SendOutcome :=
  sendGo attemptOk (resolveRetries optRetries maxRetries) retryDelay 0

/-- `AgentCommunicator.sendWithBackoff`, starting the loop at attempt 0. -/
def sendWithBackoff (attemptOk : Nat → Bool) (optMaxRetries : Option Nat)
    (maxRetries retryDelay : Nat) : SendOutcome :=
  backoffGo attemptOk (resolveRetries optMaxRetries maxRetries) retryDelay 0

/-! ### HeartbeatScheduler (`src/core/scheduler.js`, `CreditTimerKeeper`) -/

/-- The scheduler's mutable state: the enabled flag, whether the heartbeat
timer and the cooldown (pause) timer are armed, the pause flag, and whether
`start` has supplied a callback. -/
structure Keeper where
  enabled : Bool
  timer : Bool
  pauseTimer : Bool
  isPaused : Bool
  hasCallback : Bool
  deriving Repr, DecidableEq

/-- `scheduleNextHeartbeat`: arm the heartbeat timer unless disabled or
paused. -/
def scheduleNextHeartbeat (k : Keeper) : Keeper :=
  if ¬ k.enabled ∨ k.isPaused then k else { k with timer := true }

/-- `stop`: cancel both timers and clear the pause flag. -/
def stopKeeper (k : Keeper) : Keeper :=
  { k with timer := false, pauseTimer := false, isPaused := false }

/-- `start(callback)`: record the callback; when enabled and not already
running, schedule the first heartbeat. -/
def startKeeper (k : Keeper) : Keeper :=
  let k1 := { k with hasCallback := true }
  if ¬ k1.enabled then k1
  else if k1.timer then k1
  else scheduleNextHeartbeat k1

/-- `enable`: no-op when already enabled; else set the flag and, if a
callback was supplied, schedule. -/
def enableKeeper (k : Keeper) : Keeper :=
  if k.enabled then k
  else
    let k1 := { k with enabled := true }
    if k1.hasCallback then scheduleNextHeartbeat k1 else k1

/-- `disable`: no-op when already disabled; else clear the flag and stop. -/
def disableKeeper (k : Keeper) : Keeper :=
  if ¬ k.enabled then k
  else stopKeeper { k with enabled := false }

/-- `pauseAfterRealMessage`: no-op when disabled or already paused; else
cancel the heartbeat timer, set the pause flag and arm the cooldown timer. -/
def pauseAfterRealMessage (k : Keeper) : Keeper :=
  if ¬ k.enabled ∨ k.isPaused then k
  else { k with timer := false, pauseTimer := true, isPaused := true }

/-- The heartbeat timer firing: the pending timer is consumed, the
heartbeat is sent (its failure is swallowed), and `scheduleNextHeartbeat`
re-arms in the `finally` block. -/
def timerFire (k : Keeper) : Keeper :=
  if k.timer then scheduleNextHeartbeat { k with timer := false } else k

/-- The cooldown timer firing: clear the pause flag and the cooldown timer,
then re-arm the regular heartbeat. -/
def pauseTimerFire (k : Keeper) : Keeper :=
  if k.pauseTimer then
    scheduleNextHeartbeat { k with isPaused := false, pauseTimer := false }
  else k

/-- A scheduler state reachable from a fresh instance (timers unarmed, not
paused, no callback; the enabled flag comes from configuration) by the
methods and timer firings. -/
inductive KeeperReachable : Keeper → Prop
  | init (b : Bool) : KeeperReachable ⟨b, false, false, false, false⟩
  | start {k} : KeeperReachable k → KeeperReachable (startKeeper k)
  | stop {k} : KeeperReachable k → KeeperReachable (stopKeeper k)
  | enable {k} : KeeperReachable k → KeeperReachable (enableKeeper k)
  | disable {k} : KeeperReachable k → KeeperReachable (disableKeeper k)
  | pause {k} : KeeperReachable k → KeeperReachable (pauseAfterRealMessage k)
  | fire {k} : KeeperReachable k → KeeperReachable (timerFire k)
  | cooldownFire {k} : KeeperReachable k → KeeperReachable (pauseTimerFire k)

/-- The spec's scheduler phases. -/
inductive Phase where
  | stopped
  | scheduled
  | paused
  deriving Repr, DecidableEq

/-- The phase of a keeper state: paused while the pause flag is set,
scheduled while a heartbeat timer is armed, stopped otherwise. -/
def phase (k : Keeper) : Phase :=
  if k.isPaused then .paused
  else if k.timer then .scheduled
  else .stopped

/-! ### Auxiliary definitions for the claims -/

/-- Run the rate-limit middleware once per listed timestamp (same sender
context each time), threading the rate-limit map; record for each message
whether it was accepted. -/
def rlRunTimes (ctx : Ctx) (w : World) : List Nat → List Bool × World
  | [] => ([], w)
  | t :: ts =>
    match rateLimitMiddleware "m" ctx { w with now := t } with
    | (w1, step) =>
      let accepted := match step with | .proceed _ => true | _ => false
      let r := rlRunTimes ctx w1 ts
      (accepted :: r.1, r.2)

/-- A sequence of `publish` calls, awaited sequentially. -/
def publishSeq (bus : Bus) (w : World) : List (String × String × Ctx) → Bus × World
  | [] => (bus, w)
  | (e, m, c) :: rest =>
    let p := publish bus e m c w
    publishSeq p.bus p.world rest

/-- The call-order data of a buffer entry (event, message, context),
forgetting the timestamp. -/
def entryData (b : BufferEntry) : String × String × Ctx :=
  (b.event, b.message, b.context)

/-- Join character-list tokens with single spaces (the inverse direction
of `splitSp`). -/
def joinSp : List (List Char) → List Char
  | [] => []
  | [l] => l
  | l :: ls => l ++ ' ' :: joinSp ls

/-- Modelled from the spec's words "splits on whitespace": the
whitespace-separated tokens of a message, with no empty tokens. -/
def specWhitespaceTokens (s : String) : List String :=
  (((s.data.splitOnP fun c => c.isWhitespace).filter fun l => l ≠ []).map String.mk)

/-- Invariant of all reachable scheduler states: an armed heartbeat timer
implies enabled and not paused; the cooldown timer is armed exactly while
paused; paused implies enabled. -/
def KeeperInv (k : Keeper) : Prop :=
  (k.timer = true → k.enabled = true ∧ k.isPaused = false) ∧
  k.pauseTimer = k.isPaused ∧
  (k.isPaused = true → k.enabled = true)

/-- A middleware that returns without calling its continuation. -/
def stopMW : MW := fun _ ctx w => (w, .stop ctx)

/-- A two-middleware chain whose first element never calls `next`. -/
def busC1 : Bus := { middleware := [stopMW, validationMiddleware] }

/-- A bus whose chain has a stopping middleware in second position. -/
def busC1w : Bus := { middleware := [loggingMiddleware, stopMW, validationMiddleware] }

/-- A registry holding one agent with a configured secret. -/
def regC3 : Registry :=
  [("a1", { callbackUrl := "http://localhost:4000", secret := "s3cret" })]

/-- The default middleware chain, in the registration order of the server
setup: validation, logging, command detection, access control, rate
limiting. -/
def setupMiddleware (reg : Registry) : List MW :=
  [validationMiddleware, loggingMiddleware, commandDetectionMiddleware,
   accessControlMiddleware reg, rateLimitMiddleware]

/-- A command registry with a handler registered under `help`. -/
def cmdsC2 : Commands := [("help", fun _ _ => .ok ⟨"help text"⟩)]

/-- A bus with the default middleware chain over an empty agent registry. -/
def busC2 : Bus := { middleware := setupMiddleware [] }

/-- A router with a `slack` platform, no agent adapters and no default
agent. -/
def rsC2 : RouterState := { platformAdapters := ["slack"] }

/-- A bus holding exactly one published entry. -/
def busC4 : Bus := (publish {} "message:incoming" "hi" {} { now := 5 }).bus

/-! ## Theorems -/

/-- Closed form of the `sendToAgent` retry loop for `retries = 2`. -/
theorem sendGo_two (f : Nat → Bool) (rd : Nat) :
    sendGo f 2 rd 0 =
      if f 0 then ⟨true, 1, [], none⟩
      else if f 1 then ⟨true, 2, [rd * 1], none⟩
      else if f 2 then ⟨true, 3, [rd * 1, rd * 2], none⟩
      else ⟨false, 3, [rd * 1, rd * 2], some 3⟩ := by
  rw [sendGo, sendGo, sendGo]
  rcases h0 : f 0 <;> rcases h1 : f 1 <;> rcases h2 : f 2 <;> simp [h0, h1, h2]

/-- Closed form of the `sendWithBackoff` retry loop for `maxRetries = 2`. -/
theorem backoffGo_two (f : Nat → Bool) (rd : Nat) :
    backoffGo f 2 rd 0 =
      if f 0 then ⟨true, 1, [], none⟩
      else if f 1 then ⟨true, 2, [rd * 2 ^ 0], none⟩
      else if f 2 then ⟨true, 3, [rd * 2 ^ 0, rd * 2 ^ 1], none⟩
      else ⟨false, 3, [rd * 2 ^ 0, rd * 2 ^ 1], some 3⟩ := by
  rw [backoffGo, backoffGo, backoffGo]
  rcases h0 : f 0 <;> rcases h1 : f 1 <;> rcases h2 : f 2 <;> simp [h0, h1, h2]

/-- C5: `sendToAgent` with `retries = 2` performs at most 3 attempts; a
delivery error naming 3 attempts is raised exactly when all 3 attempts
fail (and then exactly 3 attempts were performed); the wait before the
`N`-th retry is `retryDelay * N`; and in `sendWithBackoff` the waits
(`retryDelay * 2 ^ (attempt - 1)`) are strictly increasing. -/
theorem sendToAgent_retry_policy (f : Nat → Bool) (rd : Nat) (hrd : 0 < rd) :
    (sendToAgent f (some 2) 2 rd).attempts ≤ 3 ∧
    ((sendToAgent f (some 2) 2 rd).err = some 3 ↔
      f 0 = false ∧ f 1 = false ∧ f 2 = false) ∧
    ((sendToAgent f (some 2) 2 rd).err ≠ none →
      (sendToAgent f (some 2) 2 rd).attempts = 3) ∧
    (sendToAgent f (some 2) 2 rd).delays =
      (List.range ((sendToAgent f (some 2) 2 rd).attempts - 1)).map (fun i => rd * (i + 1)) ∧
    (sendWithBackoff f (some 2) 2 rd).delays =
      (List.range ((sendWithBackoff f (some 2) 2 rd).attempts - 1)).map (fun i => rd * 2 ^ i) ∧
    List.Chain' (fun a b => a < b) (sendWithBackoff f (some 2) 2 rd).delays := by
  have hs : sendToAgent f (some 2) 2 rd = sendGo f 2 rd 0 := rfl
  have hb : sendWithBackoff f (some 2) 2 rd = backoffGo f 2 rd 0 := rfl
  rw [hs, hb, sendGo_two, backoffGo_two]
  rcases h0 : f 0 <;> rcases h1 : f 1 <;> rcases h2 : f 2 <;>
    simp [h0, h1, h2, List.range_succ, List.chain'_cons] <;> omega

/-- C9: passing `retries: 0` is indistinguishable from omitting the option
(JS `options.retries || this.maxRetries` treats 0 as falsy); in particular
with the default `maxRetries = 2` an always-failing endpoint still gets 3
attempts and the error names 3 attempts. -/
theorem sendToAgent_zero_retries (f : Nat → Bool) (rd maxRetries : Nat) :
    sendToAgent f (some 0) maxRetries rd = sendToAgent f none maxRetries rd ∧
    (sendToAgent (fun _ => false) (some 0) 2 rd).attempts = 3 ∧
    (sendToAgent (fun _ => false) (some 0) 2 rd).err = some 3 := by
  refine ⟨rfl, ?_, ?_⟩ <;>
    · have hs : sendToAgent (fun _ => false) (some 0) 2 rd = sendGo (fun _ => false) 2 rd 0 := rfl
      rw [hs, sendGo_two]
      simp

/-- C7: `CommandHandler.execute` never throws: an unknown command yields
the "Unknown command" message, a throwing handler is caught and rendered
as an error message, and a successful handler's result is returned. -/
theorem execute_isolates_failures (cmds : Commands) (command : String)
    (args : List String) (ctx : Ctx) :
    (∃ r, execute cmds command args ctx = .ok r) ∧
    (List.lookup command cmds = none →
      execute cmds command args ctx =
        .ok ⟨"Unknown command: /" ++ command ++ "\n\nUse /help to see available commands."⟩) ∧
    (∀ handler e, List.lookup command cmds = some handler → handler args ctx = .error e →
      execute cmds command args ctx = .ok ⟨"Error executing command: " ++ e⟩) ∧
    (∀ handler r, List.lookup command cmds = some handler → handler args ctx = .ok r →
      execute cmds command args ctx = .ok r) := by
  refine ⟨?_, ?_, ?_, ?_⟩
  · unfold execute
    cases h : List.lookup command cmds with
    | none => exact ⟨_, rfl⟩
    | some handler =>
      cases hr : handler args ctx with
      | error e => exact ⟨⟨"Error executing command: " ++ e⟩, by simp [hr]⟩
      | ok r => exact ⟨r, by simp [hr]⟩
  · intro h; simp [execute, h]
  · intro handler e h hr; simp [execute, h, hr]
  · intro handler r h hr; simp [execute, h, hr]

/-- Replacing the value under a present key is seen by `lookup`. -/
theorem lookup_map_replace (m : List (String × RateEntry)) (key : String) (v : RateEntry)
    (hsome : (List.lookup key m).isSome) :
    List.lookup key (m.map (fun p => if p.1 = key then (key, v) else p)) = some v := by
  induction m with
  | nil => simp [List.lookup] at hsome
  | cons p rest ih =>
    rcases p with ⟨a, b⟩
    by_cases h : a = key
    · subst h
      simp only [List.map_cons, if_pos rfl]
      simp [List.lookup]
    · have hne : (key == a) = false := by simp [BEq.beq]; exact fun hh => h hh.symm
      simp only [List.map_cons, if_neg h] at *
      simp only [List.lookup, hne] at hsome ⊢
      exact ih hsome

/-- Appending a binding for an absent key is seen by `lookup`. -/
theorem lookup_append_self (m : List (String × RateEntry)) (key : String) (v : RateEntry)
    (hnone : ¬ (List.lookup key m).isSome) :
    List.lookup key (m ++ [(key, v)]) = some v := by
  induction m with
  | nil => simp [List.lookup]
  | cons p rest ih =>
    rcases p with ⟨a, b⟩
    by_cases h : key = a
    · exfalso
      apply hnone
      simp [List.lookup, h]
    · have hne : (key == a) = false := by simp [BEq.beq]; exact h
      simp only [List.lookup, hne, List.cons_append] at hnone ⊢
      exact ih hnone

/-- `Map.set` semantics: the written value is what `lookup` then sees. -/
theorem lookup_rlSet_self (m : List (String × RateEntry)) (key : String) (v : RateEntry) :
    List.lookup key (rlSet m key v) = some v := by
  unfold rlSet
  split
  · exact lookup_map_replace m key v (by assumption)
  · exact lookup_append_self m key v (by assumption)

/-- One in-window step of the rate limiter over an already-exceeded
counter: the message is rejected and the counter still grows. -/
theorem rateLimit_step_rejected (msg : String) (ctx : Ctx) (w : World) (e : RateEntry)
    (hl : List.lookup (rlKey ctx) w.rateLimits = some e)
    (hwin : w.now ≤ e.resetAt) (hcap : maxMessagesPerWindow ≤ e.count) :
    rateLimitMiddleware msg ctx w =
      ({ w with rateLimits := rlSet w.rateLimits (rlKey ctx) ⟨e.count + 1, e.resetAt⟩ },
       .throwE "Rate limit exceeded. Please slow down.") := by
  unfold rateLimitMiddleware
  dsimp only
  rw [hl]
  dsimp only
  rw [if_neg (by omega), if_pos (by simp [maxMessagesPerWindow] at hcap ⊢; omega)]

/-- In-window messages after the cap has been exceeded are all rejected,
however many arrive before the window resets. -/
theorem rlRunTimes_all_rejected (ctx : Ctx) :
    ∀ (ts : List Nat) (w : World) (e : RateEntry),
      List.lookup (rlKey ctx) w.rateLimits = some e →
      maxMessagesPerWindow ≤ e.count →
      (∀ t ∈ ts, t ≤ e.resetAt) →
      ∀ b ∈ (rlRunTimes ctx w ts).1, b = false := by
  intro ts
  induction ts with
  | nil =>
    intro w e _ _ _ b hb
    simp [rlRunTimes] at hb
  | cons t ts ih =>
    intro w e hl hcap hts b hb
    have hl' : List.lookup (rlKey ctx) ({ w with now := t } : World).rateLimits = some e := hl
    have hstep := rateLimit_step_rejected "m" ctx { w with now := t } e hl'
      (hts t (by simp)) hcap
    rw [rlRunTimes, hstep] at hb
    simp only [List.mem_cons] at hb
    rcases hb with hb | hb
    · exact hb
    · refine ih _ ⟨e.count + 1, e.resetAt⟩ (lookup_rlSet_self _ _ _) (by dsimp only; omega) ?_ b hb
      intro t' ht'
      exact hts t' (by simp [ht'])

/-- C10: the rate limiter increments the per-key counter even on rejected
messages; once the cap is exceeded every further in-window message from
the key is rejected; and the first message after the window has elapsed is
accepted with the counter reset to 1. -/
theorem rateLimit_counts_rejected (msg : String) (ctx : Ctx) (w : World) (e : RateEntry)
    (hl : List.lookup (rlKey ctx) w.rateLimits = some e) :
    (w.now ≤ e.resetAt → maxMessagesPerWindow ≤ e.count →
      (rateLimitMiddleware msg ctx w).2 = .throwE "Rate limit exceeded. Please slow down." ∧
      List.lookup (rlKey ctx) (rateLimitMiddleware msg ctx w).1.rateLimits =
        some ⟨e.count + 1, e.resetAt⟩) ∧
    (e.resetAt < w.now →
      (rateLimitMiddleware msg ctx w).2 = .proceed ctx ∧
      List.lookup (rlKey ctx) (rateLimitMiddleware msg ctx w).1.rateLimits =
        some ⟨1, w.now + rateLimitWindow⟩) ∧
    (maxMessagesPerWindow ≤ e.count →
      ∀ ts, (∀ t ∈ ts, t ≤ e.resetAt) →
        ∀ b ∈ (rlRunTimes ctx w ts).1, b = false) := by
  refine ⟨?_, ?_, ?_⟩
  · intro hwin hcap
    rw [rateLimit_step_rejected msg ctx w e hl hwin hcap]
    exact ⟨rfl, lookup_rlSet_self _ _ _⟩
  · intro hlate
    have : rateLimitMiddleware msg ctx w =
        ({ w with rateLimits := rlSet w.rateLimits (rlKey ctx) ⟨1, w.now + rateLimitWindow⟩ },
         .proceed ctx) := by
      unfold rateLimitMiddleware
      dsimp only
      rw [hl]
      dsimp only
      rw [if_pos hlate]
    rw [this]
    exact ⟨rfl, lookup_rlSet_self _ _ _⟩
  · intro hcap ts hts
    exact rlRunTimes_all_rejected ctx ts w e hl hcap hts

/-- Witness for C10 at a concrete exhausted counter: the next two
in-window messages are both rejected and the counter is incremented. -/
theorem rateLimit_counts_rejected_witness :
    ((rateLimitMiddleware "hi" { user := "u1" }
        { rateLimits := [("u1", ⟨30, 100⟩)], now := 40 }).2 =
      .throwE "Rate limit exceeded. Please slow down.") ∧
    ∀ b ∈ (rlRunTimes { user := "u1" }
        { rateLimits := [("u1", ⟨30, 100⟩)], now := 40 } [50, 60]).1, b = false :=
  ⟨((rateLimit_counts_rejected "hi" { user := "u1" }
      { rateLimits := [("u1", ⟨30, 100⟩)], now := 40 } ⟨30, 100⟩ rfl).1
        (by decide) (by decide)).1,
   (rateLimit_counts_rejected "hi" { user := "u1" }
      { rateLimits := [("u1", ⟨30, 100⟩)], now := 40 } ⟨30, 100⟩ rfl).2.2
        (by decide) [50, 60] (by decide)⟩

/-- Every scheduler method and timer firing preserves the reachable-state
invariant. -/
theorem keeperInv_step (k : Keeper) :
    KeeperInv k →
      KeeperInv (startKeeper k) ∧ KeeperInv (stopKeeper k) ∧ KeeperInv (enableKeeper k) ∧
      KeeperInv (disableKeeper k) ∧ KeeperInv (pauseAfterRealMessage k) ∧
      KeeperInv (timerFire k) ∧ KeeperInv (pauseTimerFire k) := by
  obtain ⟨en, ti, pt, ip, cb⟩ := k
  unfold KeeperInv startKeeper stopKeeper enableKeeper disableKeeper pauseAfterRealMessage
    timerFire pauseTimerFire scheduleNextHeartbeat
  rcases en <;> rcases ti <;> rcases pt <;> rcases ip <;> rcases cb <;> decide

/-- All reachable scheduler states satisfy the invariant. -/
theorem keeperReachable_inv {k : Keeper} (h : KeeperReachable k) : KeeperInv k := by
  induction h with
  | init b =>
    unfold KeeperInv
    rcases b <;> decide
  | start _ ih => exact (keeperInv_step _ ih).1
  | stop _ ih => exact (keeperInv_step _ ih).2.1
  | enable _ ih => exact (keeperInv_step _ ih).2.2.1
  | disable _ ih => exact (keeperInv_step _ ih).2.2.2.1
  | pause _ ih => exact (keeperInv_step _ ih).2.2.2.2.1
  | fire _ ih => exact (keeperInv_step _ ih).2.2.2.2.2.1
  | cooldownFire _ ih => exact (keeperInv_step _ ih).2.2.2.2.2.2

/-- C8: on every reachable scheduler state, `pauseAfterRealMessage` from
`Scheduled` yields `Paused` with the cooldown timer armed and the
heartbeat timer cancelled; the cooldown firing from `Paused` returns to
`Scheduled`; and `disable` from any state yields `Stopped` with no pending
timers and the enabled flag cleared. -/
theorem keeper_pause_cooldown_disable (k : Keeper) (hk : KeeperReachable k) :
    (phase k = .scheduled →
      phase (pauseAfterRealMessage k) = .paused ∧
      (pauseAfterRealMessage k).pauseTimer = true ∧
      (pauseAfterRealMessage k).timer = false) ∧
    (phase k = .paused → phase (pauseTimerFire k) = .scheduled) ∧
    (phase (disableKeeper k) = .stopped ∧ (disableKeeper k).timer = false ∧
      (disableKeeper k).pauseTimer = false ∧ (disableKeeper k).enabled = false) := by
  have inv := keeperReachable_inv hk
  obtain ⟨en, ti, pt, ip, cb⟩ := k
  revert inv
  unfold KeeperInv phase pauseAfterRealMessage pauseTimerFire disableKeeper stopKeeper
    scheduleNextHeartbeat
  rcases en <;> rcases ti <;> rcases pt <;> rcases ip <;> rcases cb <;> decide

/-- Witness for C8 on the reachable state obtained by starting an enabled
fresh scheduler: pausing moves it to `Paused`, disabling stops it. -/
theorem keeper_pause_cooldown_disable_witness :
    (phase (pauseAfterRealMessage (startKeeper ⟨true, false, false, false, false⟩)) = .paused ∧
      (pauseAfterRealMessage (startKeeper ⟨true, false, false, false, false⟩)).pauseTimer = true ∧
      (pauseAfterRealMessage (startKeeper ⟨true, false, false, false, false⟩)).timer = false) ∧
    phase (disableKeeper (startKeeper ⟨true, false, false, false, false⟩)) = .stopped :=
  ⟨(keeper_pause_cooldown_disable (startKeeper ⟨true, false, false, false, false⟩)
      (KeeperReachable.start (KeeperReachable.init true))).1 (by decide),
   (keeper_pause_cooldown_disable (startKeeper ⟨true, false, false, false, false⟩)
      (KeeperReachable.start (KeeperReachable.init true))).2.2.1⟩

/-- A chain whose prefix fully proceeds continues with the rest of the
chain from the context and world the prefix produced. -/
theorem execChain_append (pre rest : List MW) (msg : String) (c : Ctx) (w : World)
    (c' : Ctx) (w' : World)
    (hpre : execChain pre msg c w = ⟨w', .ok c', pre.length, false⟩) :
    execChain (pre ++ rest) msg c w =
      ⟨(execChain rest msg c' w').world, (execChain rest msg c' w').outcome,
       pre.length + (execChain rest msg c' w').ran, (execChain rest msg c' w').stopped⟩ := by
  induction pre generalizing c w with
  | nil =>
    simp only [execChain, ChainResult.mk.injEq, List.length_nil, Except.ok.injEq] at hpre
    obtain ⟨hw, hc, -, -⟩ := hpre
    subst hw
    subst hc
    simp only [List.nil_append, List.length_nil, Nat.zero_add]
  | cons mw pre ih =>
    rw [List.cons_append]
    cases hmw : mw msg c w with
    | mk w1 step =>
      cases step with
      | stop c1 =>
        simp [execChain, hmw] at hpre
      | throwE e =>
        simp [execChain, hmw] at hpre
      | proceed c1 =>
        simp only [execChain, hmw, ChainResult.mk.injEq, List.length_cons] at hpre
        obtain ⟨hw, hc, hr, hs⟩ := hpre
        have hpre' : execChain pre msg c1 w1 = ⟨w', .ok c', pre.length, false⟩ := by
          have heta : execChain pre msg c1 w1 =
              ⟨(execChain pre msg c1 w1).world, (execChain pre msg c1 w1).outcome,
               (execChain pre msg c1 w1).ran, (execChain pre msg c1 w1).stopped⟩ := rfl
          rw [heta, hw, hc, hs]
          have hran : (execChain pre msg c1 w1).ran = pre.length := by omega
          rw [hran]
        simp only [execChain, hmw, ih c1 w1 hpre', List.length_cons, ChainResult.mk.injEq]
        refine ⟨trivial, trivial, ?_, trivial⟩
        omega

/-- C1 counterexample: with a chain whose first middleware returns without
calling `next`, the chain is recorded as stopped and the second middleware
never runs, yet `publish` still emits the event and reports success. -/
theorem publish_emits_after_stopped_chain :
    (execChain busC1.middleware "hello" {} {}).stopped = true ∧
    (publish busC1 "evt" "hello" {} {}).result = .ok () ∧
    (publish busC1 "evt" "hello" {} {}).emitted = ["evt"] ∧
    (publish busC1 "evt" "hello" {} {}).ran = 1 ∧
    busC1.middleware.length = 2 := by
  refine ⟨rfl, rfl, rfl, rfl, rfl⟩

/-- C1 amended: when a middleware returns without invoking `proceed` after
an all-proceeding prefix, the remaining middleware do not run and publish
raises no error, but the event is still emitted to subscribers. -/
theorem publish_stop_skips_rest_but_emits (bus : Bus) (pre : List MW) (mw : MW)
    (post : List MW) (event msg : String) (c : Ctx) (w : World)
    (c' c'' : Ctx) (w' w'' : World)
    (hbus : bus.middleware = pre ++ mw :: post)
    (hpre : execChain pre msg c w = ⟨w', .ok c', pre.length, false⟩)
    (hstop : mw msg c' w' = (w'', .stop c'')) :
    (publish bus event msg c w).result = .ok () ∧
    (publish bus event msg c w).emitted = [event] ∧
    (publish bus event msg c w).ran = pre.length + 1 := by
  have hchain : execChain bus.middleware msg c w = ⟨w'', .ok c'', pre.length + 1, true⟩ := by
    rw [hbus, execChain_append pre (mw :: post) msg c w c' w' hpre]
    simp [execChain, hstop]
  unfold publish
  rw [hchain]
  exact ⟨rfl, rfl, rfl⟩

/-- Witness for C1's amended theorem on a three-middleware chain stopping
in second position. -/
theorem publish_stop_skips_rest_but_emits_witness :
    (publish busC1w "evt" "hello" {} {}).result = .ok () ∧
    (publish busC1w "evt" "hello" {} {}).emitted = ["evt"] ∧
    (publish busC1w "evt" "hello" {} {}).ran = 1 + 1 :=
  publish_stop_skips_rest_but_emits busC1w [loggingMiddleware] stopMW [validationMiddleware]
    "evt" "hello" {} {} {} {} {} {} rfl rfl rfl

/-- Keeping only the last `n` elements before appending more commutes with
keeping the last `n` of the whole. -/
theorem takeLast_append_takeLast (n : Nat) (l r : List α) :
    takeLast n (takeLast n l ++ r) = takeLast n (l ++ r) := by
  rcases le_or_lt l.length n with h | h
  · have hl : takeLast n l = l := by
      unfold takeLast
      rw [Nat.sub_eq_zero_of_le h, List.drop_zero]
    rw [hl]
  · unfold takeLast
    rw [List.length_append, List.length_append, List.length_drop,
      List.drop_append_eq_append_drop, List.drop_append_eq_append_drop,
      List.drop_drop, List.length_drop]
    congr 2 <;> omega

/-- `publish` updates the buffer with the new entry whether or not the
middleware chain throws. -/
theorem publish_bus (bus : Bus) (event message : String) (context : Ctx) (w : World) :
    (publish bus event message context w).bus =
      addToBuffer bus ⟨event, message, context, w.now⟩ := by
  cases h : (execChain bus.middleware message context w).outcome <;> simp [publish, h]

/-- One `addToBuffer` step: the buffer becomes the last `maxBufferSize`
entries of the old buffer plus the new entry, stays within the bound, and
leaves the configuration untouched. -/
theorem addToBuffer_facts (bus : Bus) (e : BufferEntry)
    (h : bus.messageBuffer.length ≤ bus.maxBufferSize) :
    (addToBuffer bus e).messageBuffer.map entryData =
      takeLast bus.maxBufferSize (bus.messageBuffer.map entryData ++ [entryData e]) ∧
    (addToBuffer bus e).messageBuffer.length ≤ bus.maxBufferSize ∧
    (addToBuffer bus e).maxBufferSize = bus.maxBufferSize := by
  unfold addToBuffer takeLast
  dsimp only
  by_cases hlt : bus.maxBufferSize < (bus.messageBuffer ++ [e]).length
  · rw [if_pos hlt]
    rw [List.length_append] at hlt
    simp only [List.length_append, List.length_map, List.length_cons, List.length_nil]
    have hlen : bus.messageBuffer.length = bus.maxBufferSize := by
      simp at hlt
      omega
    refine ⟨?_, ?_, trivial⟩
    · rw [← List.drop_one, List.map_drop, List.map_append]
      simp only [List.map_cons, List.map_nil]
      congr 1
      omega
    · rw [List.length_tail, List.length_append]
      simp
      omega
  · rw [if_neg hlt]
    rw [List.length_append] at hlt
    simp only [List.length_append, List.length_map, List.length_cons, List.length_nil]
    refine ⟨?_, ?_, trivial⟩
    · have h0 : bus.messageBuffer.length + (0 + 1) - bus.maxBufferSize = 0 := by
        simp at hlt
        omega
      rw [List.map_append, h0, List.drop_zero]
      simp
    · simp at hlt ⊢
      omega

/-- Buffer evolution across a sequence of sequentially awaited publishes:
the buffer is always the last `maxBufferSize` entries of everything ever
published, in call order, and never exceeds the bound. -/
theorem publishSeq_facts (msgs : List (String × String × Ctx)) :
    ∀ (bus : Bus) (w : World), bus.messageBuffer.length ≤ bus.maxBufferSize →
      (publishSeq bus w msgs).1.messageBuffer.map entryData =
        takeLast bus.maxBufferSize (bus.messageBuffer.map entryData ++ msgs) ∧
      (publishSeq bus w msgs).1.messageBuffer.length ≤ bus.maxBufferSize ∧
      (publishSeq bus w msgs).1.maxBufferSize = bus.maxBufferSize := by
  induction msgs with
  | nil =>
    intro bus w h
    refine ⟨?_, h, rfl⟩
    unfold publishSeq takeLast
    rw [List.append_nil, List.length_map,
      Nat.sub_eq_zero_of_le h, List.drop_zero]
  | cons p msgs ih =>
    rcases p with ⟨e, m, c⟩
    intro bus w h
    unfold publishSeq
    dsimp only
    rw [publish_bus]
    obtain ⟨h1, h2, h3⟩ := addToBuffer_facts bus ⟨e, m, c, w.now⟩ h
    obtain ⟨ih1, ih2, ih3⟩ := ih (addToBuffer bus ⟨e, m, c, w.now⟩)
      (publish bus e m c w).world (by rw [h3]; exact h2)
    refine ⟨?_, ?_, ?_⟩
    · rw [ih1, h3, h1, takeLast_append_takeLast]
      congr 1
      simp [entryData]
    · rw [← h3]
      exact ih2
    · rw [ih3, h3]

/-- C4 counterexample: after one publish the buffer holds one entry, and
`getRecentMessages(0)` returns that whole entry rather than the last 0
entries. -/
theorem getRecentMessages_zero_whole_buffer :
    getRecentMessages busC4 0 = busC4.messageBuffer ∧
    takeLast 0 busC4.messageBuffer = [] ∧
    busC4.messageBuffer = [⟨"message:incoming", "hi", {}, 5⟩] := by
  refine ⟨rfl, rfl, rfl⟩

/-- C4 amended: across any sequentially awaited publish sequence the
buffer length never exceeds the configured maximum 100, the buffer holds
exactly the most recent entries in call order (oldest evicted first), and
for every positive `n` `getRecentMessages n` returns exactly the last `n`
entries (fewer when the buffer holds fewer); `getRecentMessages 0` instead
returns the whole buffer. -/
theorem buffer_bounded_recent (bus : Bus) (w : World) (msgs : List (String × String × Ctx))
    (hinit : bus.messageBuffer.length ≤ bus.maxBufferSize)
    (hmax : bus.maxBufferSize = 100) :
    (publishSeq bus w msgs).1.messageBuffer.length ≤ 100 ∧
    (publishSeq bus w msgs).1.messageBuffer.map entryData =
      takeLast 100 (bus.messageBuffer.map entryData ++ msgs) ∧
    (∀ n, 1 ≤ n →
      getRecentMessages (publishSeq bus w msgs).1 n =
        takeLast n (publishSeq bus w msgs).1.messageBuffer ∧
      (getRecentMessages (publishSeq bus w msgs).1 n).length =
        min n (publishSeq bus w msgs).1.messageBuffer.length) ∧
    getRecentMessages (publishSeq bus w msgs).1 0 =
      (publishSeq bus w msgs).1.messageBuffer := by
  obtain ⟨hmap, hlen, -⟩ := publishSeq_facts msgs bus w hinit
  refine ⟨hmax ▸ hlen, hmax ▸ hmap, ?_, rfl⟩
  intro n hn
  unfold getRecentMessages takeLast
  rw [if_neg (by omega)]
  refine ⟨rfl, ?_⟩
  rw [List.length_drop]
  omega

/-- Witness for C4's amended theorem: publishing two messages onto a fresh
bus keeps both, in order. -/
theorem buffer_bounded_recent_witness :
    (publishSeq {} {} [("e1", "m1", {}), ("e2", "m2", {})]).1.messageBuffer.map entryData =
      takeLast 100 (([] : List BufferEntry).map entryData ++
        [("e1", "m1", ({} : Ctx)), ("e2", "m2", ({} : Ctx))]) :=
  (buffer_bounded_recent {} {} [("e1", "m1", {}), ("e2", "m2", {})]
    (by decide) rfl).2.1

/-- A token list without spaces splits back into itself. -/
theorem splitSp_no_space (l : List Char) (h : ' ' ∉ l) : splitSp l = [l] := by
  induction l with
  | nil => rfl
  | cons c cs ih =>
    have hc : ¬ c = ' ' := fun hh => h (hh ▸ List.mem_cons_self c cs)
    have hcs : ' ' ∉ cs := fun hh => h (List.mem_cons_of_mem c hh)
    unfold splitSp
    rw [if_neg hc, ih hcs]

/-- Splitting a space-free token followed by a space peels the token off. -/
theorem splitSp_append_space (l rest : List Char) (h : ' ' ∉ l) :
    splitSp (l ++ ' ' :: rest) = l :: splitSp rest := by
  induction l with
  | nil => simp [splitSp]
  | cons c cs ih =>
    have hc : ¬ c = ' ' := fun hh => h (hh ▸ List.mem_cons_self c cs)
    have hcs : ' ' ∉ cs := fun hh => h (List.mem_cons_of_mem c hh)
    rw [List.cons_append]
    simp only [splitSp]
    rw [if_neg hc, ih hcs]

/-- `splitSp` is a left inverse of `joinSp` on nonempty lists of space-free
tokens. -/
theorem splitSp_joinSp (ls : List (List Char)) (hne : ls ≠ [])
    (h : ∀ l ∈ ls, ' ' ∉ l) : splitSp (joinSp ls) = ls := by
  induction ls with
  | nil => exact absurd rfl hne
  | cons l ls ih =>
    cases ls with
    | nil =>
      show splitSp (joinSp [l]) = [l]
      rw [show joinSp [l] = l from rfl]
      exact splitSp_no_space l (h l (List.mem_cons_self l []))
    | cons l2 ls2 =>
      rw [show joinSp (l :: l2 :: ls2) = l ++ ' ' :: joinSp (l2 :: ls2) from rfl]
      rw [splitSp_append_space l _ (h l (List.mem_cons_self l _))]
      rw [ih (by simp) (fun x hx => h x (List.mem_cons_of_mem l hx))]

/-- Rebuilding a string from its character list is the identity. -/
theorem string_mk_data (s : String) : String.mk s.data = s := by
  cases s
  rfl

/-- Mapping to character lists and back is the identity. -/
theorem map_mk_data (ls : List String) : (ls.map String.data).map String.mk = ls := by
  rw [List.map_map]
  have hcomp : (String.mk ∘ String.data) = id := funext fun s => string_mk_data s
  rw [hcomp, List.map_id]

/-- C6 counterexample: on `"/help  x"` (two consecutive spaces) the
middleware produces the empty token in `args`, while the whitespace-split
tokens of the message have no empty token. -/
theorem commandDetection_not_whitespace_split :
    (commandDetectionMiddleware "/help  x" {} {}).2 =
      .proceed { isCommand := true, command := "help", args := ["", "x"] } ∧
    (specWhitespaceTokens "/help  x").tail = ["x"] ∧
    (["", "x"] : List String) ≠ ["x"] := by
  refine ⟨rfl, rfl, by decide⟩

/-- C6 amended: the middleware splits on single space characters: for a
message assembled from space-free tokens `t :: ts` joined by single
spaces, with `t` starting with the sigil, it sets `isCommand`, the
lower-cased sigil-stripped first token, and `args = ts`; a message not
starting with the sigil leaves the context unchanged. -/
theorem commandDetection_space_split (t : String) (ts : List String) (ctx : Ctx) (w : World)
    (msg : String)
    (hmsg : msg.data = joinSp ((t :: ts).map String.data))
    (hsp : ∀ tok ∈ t :: ts, ' ' ∉ tok.data)
    (hstart : jsStartsWith t '/' = true) :
    commandDetectionMiddleware msg ctx w =
      (w, .proceed { ctx with
                     isCommand := true,
                     command := jsToLower (jsDropFirst t),
                     args := ts }) ∧
    (∀ m c' w', jsStartsWith m '/' = false →
      commandDetectionMiddleware m c' w' = (w', .proceed c')) := by
  have hsplit : jsSplitSpace msg = t :: ts := by
    unfold jsSplitSpace
    rw [hmsg, splitSp_joinSp ((t :: ts).map String.data) (by simp) ?hsp2]
    · exact map_mk_data (t :: ts)
    case hsp2 =>
      intro l hl
      rw [List.mem_map] at hl
      obtain ⟨tok, htok, rfl⟩ := hl
      exact hsp tok htok
  have hstart2 : jsStartsWith msg '/' = true := by
    unfold jsStartsWith at hstart ⊢
    cases ht : t.data with
    | nil => rw [ht] at hstart; exact absurd hstart (by simp)
    | cons c cs =>
      rw [ht] at hstart
      rw [hmsg]
      simp only [List.map_cons]
      cases hts : ts.map String.data with
      | nil =>
        rw [show joinSp [t.data] = t.data from rfl, ht]
        exact hstart
      | cons l2 ls2 =>
        rw [ht, show joinSp ((c :: cs) :: l2 :: ls2) =
          (c :: cs) ++ ' ' :: joinSp (l2 :: ls2) from rfl]
        rw [List.cons_append]
        exact hstart
  constructor
  · unfold commandDetectionMiddleware
    rw [hstart2, if_pos rfl, hsplit]
    rfl
  · intro m c' w' hm
    unfold commandDetectionMiddleware
    simp [hm]

/-- Witness for C6's amended theorem on the message `"/Help a b"`. -/
theorem commandDetection_space_split_witness :
    commandDetectionMiddleware "/Help a b" {} {} =
      (({} : World), .proceed { isCommand := true,
                                command := jsToLower (jsDropFirst "/Help"),
                                args := ["a", "b"] }) :=
  (commandDetection_space_split "/Help" ["a", "b"] {} {} "/Help a b"
    rfl (by decide) rfl).1

/-- C2 (code bug): routing `"/help"` from Slack with the default
middleware chain and a registered `help` handler does not execute the
handler. The chain marks `isCommand` on the spread copy
`{...context, platform}` that `publish` receives, but `routeMessage` then
reads `context.isCommand` off its own, untouched object, falls through to
the agent path and throws the no-agent error. -/
theorem routeMessage_drops_command_marking :
    hasCommand cmdsC2 "help" = true ∧
    (∃ c', (execChain busC2.middleware "/help"
        { user := "u1", platform := "slack" } {}).outcome = .ok c' ∧
      c'.isCommand = true ∧ c'.command = "help") ∧
    (routeMessage rsC2 cmdsC2 busC2 "slack" "/help" { user := "u1" } {}).result =
      .error "No agent specified and no default agent set" ∧
    (routeMessage rsC2 cmdsC2 busC2 "slack" "/help" { user := "u1" } {}).delivered = [] := by
  refine ⟨rfl, ⟨_, rfl, rfl, rfl⟩, rfl, rfl⟩

/-- C3 counterexample: agent `a1` is registered with the non-empty secret
`s3cret`, the registry itself rejects an empty supplied secret, and yet an
agent-typed message from `a1` carrying no secret passes the access-control
middleware without any error. -/
theorem accessControl_skips_missing_secret :
    verifySecret regC3 "a1" "" = false ∧
    accessControlMiddleware regC3 "hi" { from_ := "a1", type := "agent" } {} =
      ({}, .proceed { from_ := "a1", type := "agent" }) := by
  constructor
  · rfl
  · rfl

/-- C3 amended: for an agent registered with a non-empty secret, the
access-control middleware throws the invalid-secret error exactly when a
non-empty secret is supplied that differs from the configured one; when no
secret is supplied the secret check is skipped entirely. -/
theorem accessControl_secret_check (reg : Registry) (msg : String) (ctx : Ctx) (w : World)
    (rec : AgentRecord)
    (hfrom : ctx.from_ ≠ "") (htype : ctx.type = "agent")
    (hreg : List.lookup ctx.from_ reg = some rec) (hsec : rec.secret ≠ "") :
    (ctx.secret ≠ "" → ctx.secret ≠ rec.secret →
      accessControlMiddleware reg msg ctx w = (w, .throwE "Invalid agent secret")) ∧
    (ctx.secret = "" →
      (accessControlMiddleware reg msg ctx w).2 ≠ .throwE "Invalid agent secret") := by
  have hhas : hasAgent reg ctx.from_ = true := by
    unfold hasAgent
    rw [hreg]
    rfl
  constructor
  · intro hs hne
    unfold accessControlMiddleware
    rw [if_pos ⟨hfrom, htype⟩, if_neg (by simp [hhas])]
    rw [if_pos]
    refine ⟨hs, ?_⟩
    unfold verifySecret
    rw [hreg]
    simp [hsec]
    exact fun hh => hne hh.symm
  · intro hs
    unfold accessControlMiddleware
    rw [if_pos ⟨hfrom, htype⟩, if_neg (by simp [hhas]), if_neg (by simp [hs])]
    split
    · simp
    · simp

/-- Witness for C3's amended theorem: a wrong supplied secret is rejected,
an absent one is waved through. -/
theorem accessControl_secret_check_witness :
    accessControlMiddleware regC3 "hi" { from_ := "a1", type := "agent", secret := "wrong" } {} =
      (({} : World), .throwE "Invalid agent secret") :=
  (accessControl_secret_check regC3 "hi" { from_ := "a1", type := "agent", secret := "wrong" }
      {} { callbackUrl := "http://localhost:4000", secret := "s3cret" }
      (by decide) rfl rfl (by decide)).1 (by decide) (by decide)

/-- Witness for C5 at `f = always-fail`, `retryDelay = 1000`. -/
theorem sendToAgent_retry_policy_witness :
    (sendToAgent (fun _ => false) (some 2) 2 1000).attempts ≤ 3 ∧
    List.Chain' (fun a b => a < b) (sendWithBackoff (fun _ => false) (some 2) 2 1000).delays :=
  ⟨(sendToAgent_retry_policy (fun _ => false) 1000 (by decide)).1,
   (sendToAgent_retry_policy (fun _ => false) 1000 (by decide)).2.2.2.2.2⟩

/-- Witness for C7: a handler that throws "kaboom" is rendered as a
user-facing error message. -/
theorem execute_isolates_failures_witness :
    execute [("boom", fun _ _ => Except.error "kaboom")] "boom" [] {} =
      .ok ⟨"Error executing command: kaboom"⟩ :=
  (execute_isolates_failures [("boom", fun _ _ => Except.error "kaboom")] "boom" [] {}).2.2.1
    (fun _ _ => Except.error "kaboom") "kaboom" rfl rfl

end Botline
